import Mathlib

/-!
Verification of the gomqtt broker memory backend (src/broker/backend.go)
and the SUBACK message codec (message package) against its specification.

The Go code is shallowly embedded: the mutable `MemoryBackend` becomes an
explicit `BackendState` record threaded through each operation; sessions
live in a heap (`sessions : List (Nat × MemSession)`) addressed by `Nat`
references so that the maps `storedSessions` / `temporarySessions` can
share one session object as the Go pointers do; Go channels `kill`/`done`
become the booleans `killClosed`/`doneClosed` (a closed one-shot channel
is level-triggered, so a boolean captures its observable state); blocking
waits whose outcome depends on the scheduler (the takeover wait on `done`,
the per-channel race in `Close`) are resolved by explicit boolean
parameters supplied by the environment.
-/

namespace GoMqtt

/-- Association-list lookup: first binding of the key wins (Go map read). -/
def alookup {α β : Type} [DecidableEq α] : List (α × β) → α → Option β
  | [], _ => none
  | (k, v) :: rest, k' => if k = k' then some v else alookup rest k'

/-- Association-list insert: replaces any existing binding (Go map write). -/
def ainsert {α β : Type} [DecidableEq α] (l : List (α × β)) (k : α) (v : β) :
    List (α × β) :=
  (k, v) :: l.filter (fun p => decide (p.1 ≠ k))

/-- Association-list erase: removes all bindings of the key (Go map delete). -/
def aerase {α β : Type} [DecidableEq α] (l : List (α × β)) (k : α) :
    List (α × β) :=
  l.filter (fun p => decide (p.1 ≠ k))

/-- An MQTT message (`packet.Message`): topic, payload, qos, retain flag.
Payload bytes are modelled as naturals. -/
structure Message where
  topic : String
  payload : List Nat
  qos : Nat
  retain : Bool
deriving DecidableEq, Repr

/-- A subscription (`packet.Subscription`): a topic filter (may contain
wildcards) and a granted qos. -/
structure Subscription where
  topic : String
  qos : Nat
deriving DecidableEq, Repr

/-- Split a character list at `/` boundaries, accumulating the current
level in reverse. -/
def splitChars : List Char → List Char → List (List Char)
  | [], acc => [acc.reverse]
  | c :: rest, acc =>
    if c = '/' then acc.reverse :: splitChars rest []
    else splitChars rest (c :: acc)

/-- Split a topic into its `/`-delimited levels (strings.Split in Go).
Written over the character list so that it evaluates by kernel
reduction. -/
def splitLevels (s : String) : List String :=
  (splitChars s.data []).map (fun l => String.mk l)

/-- Whether a topic level begins with the system prefix `$`
(strings.HasPrefix(level, "$") in Go). -/
def startsWithDollar (s : String) : Bool :=
  match s.data with
  | c :: _ => c = '$'
  | [] => false

/-- Modelled from the spec: level-by-level MQTT topic-filter matching used
by `session.MemorySession.LookupSubscription` and `topic.Tree`, whose Go
sources are not under src/. Per spec: a `+` level matches exactly one
level of any name; a `#` level matches zero or more remaining levels. -/
def matchLevels : List String → List String → Bool
  | [], [] => true
  | ["#"], _ => true
  | f :: fs, n :: ns => (f = "+" || f = n) && matchLevels fs ns
  | _, _ => false

/-- Modelled from the spec: full filter-against-name matching, including
system-topic hiding — a filter whose first level is `+` or `#` does not
match a name whose first level begins with `$`. -/
def topicMatch (filter name : String) : Bool :=
  let fs := splitLevels filter
  let ns := splitLevels name
  if (fs.head? = some "+" || fs.head? = some "#")
      && startsWithDollar (ns.head?.getD "") then
    false
  else
    matchLevels fs ns

/-- Modelled from the spec: `session.MemorySession.LookupSubscription`
(source not under src/) matches a concrete topic against the session's
stored subscriptions and returns the first match. -/
def lookupSubscription (subs : List Subscription) (topic : String) :
    Option Subscription :=
  subs.find? (fun sub => topicMatch sub.topic topic)

/-- A runtime session (`memorySession` in backend.go): the durable state
this development needs (the subscription set), the bounded delivery queue
(`queue chan *packet.Message` with its creation-time capacity `cap`), the
owning client (`owner *Client`, a reference), and the observable state of
the one-shot `kill` and `done` channels. -/
structure MemSession where
  subscriptions : List Subscription
  queue : List Message
  cap : Nat
  owner : Option Nat
  killClosed : Bool
  doneClosed : Bool
deriving DecidableEq, Repr

/-- A connected client (`*Client`): its identity (`ref`, standing for the
Go pointer), the client id it connected with, its clean-session request,
and the session reference the broker attached via `client.Session()`. -/
structure Client where
  ref : Nat
  clientID : String
  cleanSession : Bool
  sessionRef : Nat
deriving DecidableEq, Repr

/-- Errors returned by the memory backend (ErrQueueFull, ErrKilled,
ErrClosing, ErrKillTimeout in backend.go). -/
inductive BErr where
  | queueFull
  | killed
  | closing
  | killTimeout
deriving DecidableEq, Repr

/-- The `MemoryBackend` state: configuration, the three maps, the
retained-message store (the `topic.Tree` keyed by exact topic), the
session heap, and the closing flag. `nextRef` allocates fresh session
references. -/
structure BackendState where
  sessionQueueSize : Nat
  credentials : Option (List (String × String))
  activeClients : List (String × Nat)
  storedSessions : List (String × Nat)
  temporarySessions : List (Nat × Nat)
  retainedMessages : List (String × Message)
  sessions : List (Nat × MemSession)
  nextRef : Nat
  closing : Bool
deriving DecidableEq, Repr

/-- Dereference a session. -/
def lookupSession (st : BackendState) (r : Nat) : Option MemSession :=
  alookup st.sessions r

/-- Mutate the session object behind reference `r` (a Go pointer write). -/
def updateSession (st : BackendState) (r : Nat) (f : MemSession → MemSession) :
    BackendState :=
  { st with sessions := st.sessions.map (fun p => if p.1 = r then (p.1, f p.2) else p) }

/-- Authenticate (backend.go 217-238): error while closing; accept anyone
when no credentials are configured; otherwise exact map lookup. -/
def authenticate (st : BackendState) (user password : String) :
    Except BErr Bool :=
  if st.closing then
    .error .closing
  else
    match st.credentials with
    | none => .ok true
    | some creds =>
      match alookup creds user with
      | some pw => if pw = password then .ok true else .ok false
      | none => .ok false

/-- StoreRetained (backend.go 387-395): `retainedMessages.Set(msg.Topic,
msg.Copy())` — unconditionally store the message at its exact topic,
replacing any previous entry. -/
def storeRetained (st : BackendState) (msg : Message) : BackendState :=
  { st with retainedMessages := ainsert st.retainedMessages msg.topic msg }

/-- ClearRetained (backend.go 397-405): `retainedMessages.Empty(topic)` —
delete the entry stored at the exact topic. -/
def clearRetained (st : BackendState) (topic : String) : BackendState :=
  { st with retainedMessages := aerase st.retainedMessages topic }

/-- Modelled from the spec: `topic.Tree.Search` (source not under src/)
returns the values whose stored keys are matched by the query under MQTT
wildcards; on the retained store the stored keys are concrete topics and
the query may carry wildcards. -/
def searchRetained (l : List (String × Message)) (query : String) :
    List Message :=
  (l.filter (fun p => topicMatch query p.1)).map (fun p => p.2)

/-- The session newMemorySession (backend.go 153-160) builds, with
`sess.owner = client` as set at every allocation site of Setup: empty,
queue capacity `backlog`, open kill/done channels, owned by the client. -/
def freshSession (backlog cref : Nat) : MemSession :=
  { subscriptions := [], queue := [], cap := backlog, owner := some cref,
    killClosed := false, doneClosed := false }

/-- Allocate a fresh owned session in the heap. -/
def allocSession (st : BackendState) (cref : Nat) : BackendState × Nat :=
  let r := st.nextRef
  ({ st with
      sessions := (r, freshSession st.sessionQueueSize cref) :: st.sessions,
      nextRef := r + 1 }, r)

/-- Terminate (backend.go 471-492): release ownership, drop the temporary
session and the client-id mapping, close the session's done channel. -/
def terminate (st : BackendState) (c : Client) : BackendState :=
  let st1 := updateSession st c.sessionRef (fun s => { s with owner := none })
  let st2 := { st1 with
    temporarySessions := aerase st1.temporarySessions c.ref,
    activeClients := aerase st1.activeClients c.clientID }
  updateSession st2 c.sessionRef (fun s => { s with doneClosed := true })

/-- The existing-session lookup of Setup (backend.go 272-278): try the
stored sessions under the id, else the temporary session of the active
client registered under the id. -/
def existingSessionRef (st : BackendState) (id : String) : Option Nat :=
  match alookup st.storedSessions id with
  | some r => some r
  | none =>
    match alookup st.activeClients id with
    | some cr => alookup st.temporarySessions cr
    | none => none

/-- The re-arming of a stored session on resume (backend.go 322-324):
`reuse()` replaces the kill and done channels with fresh open ones, and
the session's owner becomes the connecting client. -/
def reArm (cref : Nat) (m : MemSession) : MemSession :=
  { m with killClosed := false, doneClosed := false, owner := some cref }

/-- Close the kill channel of a session. -/
def setKill (m : MemSession) : MemSession := { m with killClosed := true }

/-- Result of Setup: either a session reference plus the resumed flag, or
an error. -/
inductive SetupResult where
  | ok (sess : Nat) (resumed : Bool)
  | err (e : BErr)
deriving DecidableEq, Repr

/-- The takeover step of Setup (backend.go 280-299): if the existing
session for the id is owned, close its kill channel and wait on its done
channel. The scheduler outcome of that bounded wait is the `killOk`
parameter: the done channel fires only when the owner's Terminate runs,
so on success the owner's termination has taken effect; on timeout Setup
gives up. Returns the intermediate state and whether to proceed. -/
def setupKill (st : BackendState) (id : String) (killOk : Bool) :
    BackendState × Bool :=
  match existingSessionRef st id with
  | some r =>
    match lookupSession st r with
    | some s =>
      if s.owner.isSome then
        let stK := updateSession st r setKill
        if killOk then
          (terminate stK
            { ref := s.owner.getD 0, clientID := id,
              cleanSession := false, sessionRef := r }, true)
        else
          (stK, false)
      else
        (st, true)
    | none => (st, true)
  | none => (st, true)

/-- Setup (backend.go 244-343). Empty id: fresh temporary session. Else:
takeover kill of an owned existing session, then either (clean) delete
the stored session and create a fresh temporary one, or reuse a stored
session with resumed=true, or create and store a fresh one. -/
def setup (st : BackendState) (c : Client) (id : String) (killOk : Bool) :
    BackendState × SetupResult :=
  if st.closing then
    (st, .err .closing)
  else if id = "" then
    let st1 := (allocSession st c.ref).1
    let r := (allocSession st c.ref).2
    ({ st1 with temporarySessions := ainsert st1.temporarySessions c.ref r },
     .ok r false)
  else
    let st1 := (setupKill st id killOk).1
    if (setupKill st id killOk).2 = false then
      (st1, .err .killTimeout)
    else if c.cleanSession then
      let st2 := { st1 with storedSessions := aerase st1.storedSessions id }
      let st3 := (allocSession st2 c.ref).1
      let r := (allocSession st2 c.ref).2
      ({ st3 with
          temporarySessions := ainsert st3.temporarySessions c.ref r,
          activeClients := ainsert st3.activeClients id c.ref },
       .ok r false)
    else
      match alookup st1.storedSessions id with
      | some r =>
        let st2 := updateSession st1 r (reArm c.ref)
        ({ st2 with activeClients := ainsert st2.activeClients id c.ref },
         .ok r true)
      | none =>
        let st2 := (allocSession st1 c.ref).1
        let r := (allocSession st1 c.ref).2
        ({ st2 with
            storedSessions := ainsert st2.storedSessions id r,
            activeClients := ainsert st2.activeClients id c.ref },
         .ok r false)

/-- One append of Publish (backend.go 434-445 and 450-461): blocking send
for foreign sessions (modelled as always completing), non-blocking send
with ErrQueueFull for the publisher's own session. -/
def publishLoop (cref : Nat) (msg : Message) :
    BackendState → List Nat → BackendState × Option BErr
  | st, [] => (st, none)
  | st, r :: rest =>
    match lookupSession st r with
    | none => publishLoop cref msg st rest
    | some s =>
      if (lookupSubscription s.subscriptions msg.topic).isSome then
        if s.owner = some cref then
          if s.queue.length < s.cap then
            publishLoop cref msg
              (updateSession st r (fun m => { m with queue := m.queue ++ [msg] })) rest
          else
            (st, some .queueFull)
        else
          publishLoop cref msg
            (updateSession st r (fun m => { m with queue := m.queue ++ [msg] })) rest
      else
        publishLoop cref msg st rest

/-- The session references Publish walks: all temporary sessions, then all
stored sessions. -/
def publishRefs (st : BackendState) : List Nat :=
  st.temporarySessions.map (fun p => p.2) ++ st.storedSessions.map (fun p => p.2)

/-- Publish (backend.go 427-465): append the message to the queue of every
temporary and stored session holding a matching subscription. -/
def publish (st : BackendState) (cref : Nat) (msg : Message) :
    BackendState × Option BErr :=
  publishLoop cref msg st (publishRefs st)

/-- Specification-side description of one Publish append: the session's
queue gains the message exactly when one of its subscriptions matches the
message topic. -/
def appendIfMatch (msg : Message) (s : MemSession) : MemSession :=
  if (lookupSubscription s.subscriptions msg.topic).isSome then
    { s with queue := s.queue ++ [msg] }
  else
    s

/-- The append loop of QueueRetained (backend.go 413-419): non-blocking
send of each retained message into the client's session queue, stopping
with ErrQueueFull at the first message that does not fit. -/
def queueRetainedLoop (r : Nat) :
    BackendState → List Message → BackendState × Option BErr
  | st, [] => (st, none)
  | st, v :: rest =>
    match lookupSession st r with
    | none => queueRetainedLoop r st rest
    | some s =>
      if s.queue.length < s.cap then
        queueRetainedLoop r
          (updateSession st r (fun m => { m with queue := m.queue ++ [v] })) rest
      else
        (st, some .queueFull)

/-- QueueRetained (backend.go 408-422): search the retained store with the
subscribed topic and enqueue each match into the client's own queue. -/
def queueRetained (st : BackendState) (c : Client) (query : String) :
    BackendState × Option BErr :=
  queueRetainedLoop c.sessionRef st (searchRetained st.retainedMessages query)

/-- Whether the session behind a reference currently has an owner. -/
def ownedAt (st : BackendState) (r : Nat) : Bool :=
  match lookupSession st r with
  | some s => s.owner.isSome
  | none => false

/-- The sessions Close signals (backend.go 506-518): every temporary
session, and every stored session that has an owner. -/
def killList (st : BackendState) : List Nat :=
  st.temporarySessions.map (fun p => p.2) ++
    (st.storedSessions.map (fun p => p.2)).filter (fun r => ownedAt st r)

/-- Close (backend.go 496-542): set closing, close the kill channel of
every session in `killList`, then wait on each done channel against one
shared timeout. Whether a given session's done channel fires before the
timeout is the environment parameter `fires`. -/
def closeBackend (st : BackendState) (fires : Nat → Bool) :
    BackendState × Bool :=
  let st1 := { st with closing := true }
  let l := killList st1
  let st2 := l.foldl (fun s r => updateSession s r setKill) st1
  (st2, l.all fires)

/-! The SUBACK codec (message package). `SubackMessage.Decode` and
`SubackMessage.Encode` are under src (src/unnamed/part_002); the fixed
header helpers `headerDecode`/`headerEncode`, `validQOS` and `QOSFailure`
of that package are not and are modelled from the spec. Bytes are
naturals below 256. -/

/-- The SUBACK message-type code (9, pinned by the message-package tests). -/
def SUBACK : Nat := 9

/-- Modelled from the spec: the failure return code 0x80 of the message
package, whose constants file is not under src/. -/
def QOSFailure : Nat := 0x80

/-- Modelled from the spec: `validQOS` of the message package accepts the
three QoS levels 0, 1, 2. -/
def validQOS (q : Nat) : Bool := q = 0 || q = 1 || q = 2

/-- Decode and encode failures of the codec. -/
inductive DecodeErr where
  | insufficientBuffer
  | wrongType
  | wrongFlags
  | badRemainingLength
  | rlTooSmall
  | invalidReturnCode
deriving DecidableEq, Repr

/-- Modelled from the spec: variable-length remaining-length decoding —
one to four bytes each carrying 7 payload bits with a continuation bit on
top; the decoder fails when a fifth byte would still be needed or the
buffer runs out. Returns the value and the bytes consumed. The first
argument is the remaining byte budget (4 at the top call). -/
def varintDecode : Nat → List Nat → Option (Nat × Nat)
  | 0, _ => none
  | _ + 1, [] => none
  | fuel + 1, b :: rest =>
    if b < 128 then
      some (b, 1)
    else
      match varintDecode fuel rest with
      | some (v, n) => some ((b - 128) + 128 * v, n + 1)
      | none => none

/-- The largest encodable remaining length (2^28 - 1). -/
def maxRemainingLength : Nat := 268435455

/-- Modelled from the spec: the fixed-header decoder `headerDecode` of the
message package is not under src/. Per spec section 4.A the fixed header
is one `(type * 16 + flags)` byte followed by the remaining length; the
decoder fails on a short buffer, a wrong message type, wrong flags (zero
for every type but PUBLISH, hence zero for SUBACK), or a remaining length
the buffer cannot cover. Returns (header length, flags, remaining
length). -/
def headerDecode (src : List Nat) (t : Nat) : Except DecodeErr (Nat × Nat × Nat) :=
  match src with
  | [] => .error .insufficientBuffer
  | b :: rest =>
    if b / 16 ≠ t then
      .error .wrongType
    else if b % 16 ≠ 0 then
      .error .wrongFlags
    else
      match varintDecode 4 rest with
      | none => .error .badRemainingLength
      | some (rl, n) =>
        if rest.length - n < rl then .error .badRemainingLength
        else .ok (1 + n, b % 16, rl)

/-- A SUBACK message: the granted return codes and the packet id. -/
structure SubackMessage where
  returnCodes : List Nat
  packetID : Nat
deriving DecidableEq, Repr

/-- SubackMessage.Decode (src/unnamed/part_002, 238-277): decode the
header, check the buffer holds the two packet-id bytes, require the
remaining length to exceed 2, read the big-endian packet id, read
`remaining length - 2` return codes and validate each against
{0, 1, 2, 0x80}. Returns the bytes consumed and the message. -/
def subackDecode (src : List Nat) : Except DecodeErr (Nat × SubackMessage) :=
  match headerDecode src SUBACK with
  | .error e => .error e
  | .ok (hl, _fl, rl) =>
    if src.length < hl + 2 then
      .error .insufficientBuffer
    else if rl ≤ 2 then
      .error .rlTooSmall
    else
      let pid := ((src.drop hl).headD 0) * 256 + ((src.drop (hl + 1)).headD 0)
      let rcl := rl - 2
      let codes := (src.drop (hl + 2)).take rcl
      if codes.all (fun c => validQOS c || c = QOSFailure) then
        .ok (hl + 2 + codes.length, { returnCodes := codes, packetID := pid })
      else
        .error .invalidReturnCode

/-- Modelled from the spec: variable-length remaining-length encoding,
little-endian 7-bit groups with continuation bits; at most four bytes. -/
def varintEncode : Nat → Nat → Option (List Nat)
  | 0, _ => none
  | fuel + 1, v =>
    if v < 128 then
      some [v]
    else
      match varintEncode fuel (v / 128) with
      | some bs => some ((v % 128 + 128) :: bs)
      | none => none

/-- Modelled from the spec: the fixed-header encoder `headerEncode` of the
message package is not under src/. It writes the type/flags byte and the
remaining length, failing on overflow past the four-byte maximum. The
Go encoder's destination-capacity check is implicit here because the
model returns the produced bytes. -/
def headerEncode (flags rl t : Nat) : Except DecodeErr (List Nat) :=
  if rl > maxRemainingLength then
    .error .badRemainingLength
  else
    match varintEncode 4 rl with
    | some bs => .ok ((t * 16 + flags) :: bs)
    | none => .error .badRemainingLength

/-- SubackMessage.Encode (src/unnamed/part_002, 282-308): validate every
return code against {0, 1, 2, 0x80}, encode the header with remaining
length `2 + number of codes`, write the big-endian packet id, then the
return codes. -/
def subackEncode (sm : SubackMessage) : Except DecodeErr (List Nat) :=
  if sm.returnCodes.all (fun c => validQOS c || c = QOSFailure) then
    match headerEncode 0 (2 + sm.returnCodes.length) SUBACK with
    | .ok hdr => .ok (hdr ++ sm.packetID / 256 % 256 :: sm.packetID % 256 :: sm.returnCodes)
    | .error e => .error e
  else
    .error .invalidReturnCode

/-! Concrete states used to instantiate the theorems. -/

/-- A freshly constructed backend (`NewMemoryBackend`). -/
def stEmpty : BackendState :=
  { sessionQueueSize := 100, credentials := none, activeClients := [],
    storedSessions := [], temporarySessions := [], retainedMessages := [],
    sessions := [], nextRef := 0, closing := false }

/-- A sample connected client. -/
def clientA : Client :=
  { ref := 10, clientID := "a", cleanSession := false, sessionRef := 0 }

/-- A sample session owned by `clientA`, subscribed to `t`, with a queue
of capacity 1. -/
def sessA : MemSession :=
  { subscriptions := [{ topic := "t", qos := 0 }], queue := [], cap := 1,
    owner := some 10, killClosed := false, doneClosed := false }

/-- A backend in which `clientA` owns stored session 0 under id `a`. -/
def stWithA : BackendState :=
  { stEmpty with
      activeClients := [("a", 10)], storedSessions := [("a", 0)],
      sessions := [(0, sessA)], nextRef := 1 }

/-- A sample message on topic `t`. -/
def msgT : Message := { topic := "t", payload := [1, 2], qos := 0, retain := false }

/-- A second sample message, on topic `u`. -/
def msgU : Message := { topic := "u", payload := [3], qos := 0, retain := true }

/-- A backend like `stWithA` but with two retained messages stored. -/
def stRetQ : BackendState :=
  { stWithA with retainedMessages := [("t", msgT), ("u", msgU)] }

/-- A second client reconnecting under the id `a` without clean-session. -/
def clientB : Client :=
  { ref := 20, clientID := "a", cleanSession := false, sessionRef := 0 }

/-- A client connecting under the id `a` with clean-session requested. -/
def clientCleanA : Client :=
  { ref := 10, clientID := "a", cleanSession := true, sessionRef := 0 }

/-! Theorems. -/

theorem alookup_filter_self {α β : Type} [DecidableEq α]
    (l : List (α × β)) (k : α) :
    alookup (l.filter (fun p => decide (p.1 ≠ k))) k = none := by
  induction l with
  | nil => rfl
  | cons p rest ih =>
    cases p with
    | mk a b =>
      by_cases hp : a = k
      · rw [show List.filter (fun p => decide (p.1 ≠ k)) ((a, b) :: rest)
              = List.filter (fun p => decide (p.1 ≠ k)) rest by
            rw [List.filter_cons]; simp [hp]]
        exact ih
      · rw [show List.filter (fun p => decide (p.1 ≠ k)) ((a, b) :: rest)
              = (a, b) :: List.filter (fun p => decide (p.1 ≠ k)) rest by
            rw [List.filter_cons]; simp [hp]]
        show (if a = k then some b
              else alookup (List.filter (fun p => decide (p.1 ≠ k)) rest) k) = none
        rw [if_neg hp]
        exact ih

theorem alookup_filter_ne {α β : Type} [DecidableEq α]
    (l : List (α × β)) (k k' : α) (h : k ≠ k') :
    alookup (l.filter (fun p => decide (p.1 ≠ k))) k' = alookup l k' := by
  induction l with
  | nil => rfl
  | cons p rest ih =>
    cases p with
    | mk a b =>
      by_cases hp : a = k
      · rw [show List.filter (fun p => decide (p.1 ≠ k)) ((a, b) :: rest)
              = List.filter (fun p => decide (p.1 ≠ k)) rest by
            rw [List.filter_cons]; simp [hp]]
        rw [ih]
        show alookup rest k' = if a = k' then some b else alookup rest k'
        rw [if_neg (fun he => h (hp ▸ he))]
      · rw [show List.filter (fun p => decide (p.1 ≠ k)) ((a, b) :: rest)
              = (a, b) :: List.filter (fun p => decide (p.1 ≠ k)) rest by
            rw [List.filter_cons]; simp [hp]]
        show (if a = k' then some b
              else alookup (List.filter (fun p => decide (p.1 ≠ k)) rest) k')
            = if a = k' then some b else alookup rest k'
        rw [ih]

theorem alookup_ainsert_self {α β : Type} [DecidableEq α]
    (l : List (α × β)) (k : α) (v : β) : alookup (ainsert l k v) k = some v := by
  show (if k = k then some v else _) = some v
  rw [if_pos rfl]

theorem alookup_ainsert_ne {α β : Type} [DecidableEq α]
    (l : List (α × β)) (k k' : α) (v : β) (h : k ≠ k') :
    alookup (ainsert l k v) k' = alookup l k' := by
  show (if k = k' then some v
        else alookup (l.filter (fun p => decide (p.1 ≠ k))) k') = alookup l k'
  rw [if_neg h, alookup_filter_ne l k k' h]

theorem alookup_aerase_self {α β : Type} [DecidableEq α]
    (l : List (α × β)) (k : α) : alookup (aerase l k) k = none :=
  alookup_filter_self l k

theorem alookup_aerase_ne {α β : Type} [DecidableEq α]
    (l : List (α × β)) (k k' : α) (h : k ≠ k') :
    alookup (aerase l k) k' = alookup l k' :=
  alookup_filter_ne l k k' h

theorem alookup_mapUpdate {β : Type} (l : List (Nat × β)) (r : Nat)
    (f : β → β) (r' : Nat) :
    alookup (l.map (fun p => if p.1 = r then (p.1, f p.2) else p)) r'
      = if r' = r then (alookup l r').map f else alookup l r' := by
  induction l with
  | nil => by_cases h : r' = r <;> simp [alookup, h]
  | cons p rest ih =>
    cases p with
    | mk a b =>
      have hsymm : ∀ x y : Nat, ¬x = y → ¬y = x := fun x y h he => h he.symm
      have hmap : List.map (fun p => if p.1 = r then (p.1, f p.2) else p) ((a, b) :: rest)
          = (if a = r then (a, f b) else (a, b))
            :: List.map (fun p => if p.1 = r then (p.1, f p.2) else p) rest := rfl
      rw [hmap]
      by_cases ha : a = r
      · subst ha
        rw [if_pos rfl]
        by_cases har : a = r'
        · subst har
          simp [alookup, ih]
        · simp [alookup, har, hsymm a r' har, ih]
      · rw [if_neg ha]
        by_cases har : a = r'
        · subst har
          simp [alookup, ha, hsymm a r ha, ih]
        · simp [alookup, ha, har, hsymm a r' har, ih]

theorem lookupSession_updateSession (st : BackendState) (r : Nat)
    (f : MemSession → MemSession) (r' : Nat) :
    lookupSession (updateSession st r f) r'
      = if r' = r then (lookupSession st r').map f else lookupSession st r' :=
  alookup_mapUpdate st.sessions r f r'

theorem updateSession_storedSessions (st : BackendState) (r : Nat)
    (f : MemSession → MemSession) :
    (updateSession st r f).storedSessions = st.storedSessions := rfl

theorem terminate_storedSessions (st : BackendState) (c : Client) :
    (terminate st c).storedSessions = st.storedSessions := rfl

theorem lookupSession_terminate (st : BackendState) (c : Client) (r' : Nat) :
    lookupSession (terminate st c) r'
      = if r' = c.sessionRef then
          (lookupSession st r').map (fun s => { s with owner := none, doneClosed := true })
        else
          lookupSession st r' := by
  unfold terminate
  rw [lookupSession_updateSession]
  by_cases hr : r' = c.sessionRef
  · rw [if_pos hr, if_pos hr]
    have hmid :
        lookupSession
          { updateSession st c.sessionRef (fun s => { s with owner := none }) with
              temporarySessions :=
                aerase (updateSession st c.sessionRef (fun s => { s with owner := none })).temporarySessions c.ref,
              activeClients :=
                aerase (updateSession st c.sessionRef (fun s => { s with owner := none })).activeClients c.clientID }
          r'
          = lookupSession (updateSession st c.sessionRef (fun s => { s with owner := none })) r' := rfl
    rw [hmid, lookupSession_updateSession, if_pos hr, Option.map_map]
    rfl
  · rw [if_neg hr, if_neg hr]
    have hmid :
        lookupSession
          { updateSession st c.sessionRef (fun s => { s with owner := none }) with
              temporarySessions :=
                aerase (updateSession st c.sessionRef (fun s => { s with owner := none })).temporarySessions c.ref,
              activeClients :=
                aerase (updateSession st c.sessionRef (fun s => { s with owner := none })).activeClients c.clientID }
          r'
          = lookupSession (updateSession st c.sessionRef (fun s => { s with owner := none })) r' := rfl
    rw [hmid, lookupSession_updateSession, if_neg hr]

theorem setupKill_storedSessions (st : BackendState) (id : String) (ko : Bool) :
    (setupKill st id ko).1.storedSessions = st.storedSessions := by
  cases hE : existingSessionRef st id with
  | none => simp only [setupKill, hE]
  | some r =>
    cases hS : lookupSession st r with
    | none => simp only [setupKill, hE, hS]
    | some s =>
      by_cases ho : s.owner.isSome
      · cases ko <;>
          simp [setupKill, hE, hS, ho, terminate_storedSessions,
            updateSession_storedSessions]
      · simp [setupKill, hE, hS, ho]

theorem setupKill_lookup_reArm (st : BackendState) (id : String) (ko : Bool)
    (x r' : Nat) :
    (lookupSession (setupKill st id ko).1 r').map (reArm x)
      = (lookupSession st r').map (reArm x) := by
  cases hE : existingSessionRef st id with
  | none => simp only [setupKill, hE]
  | some r =>
    cases hS : lookupSession st r with
    | none => simp only [setupKill, hE, hS]
    | some s =>
      by_cases ho : s.owner.isSome
      · cases ko
        · simp only [setupKill, hE, hS, ho, if_true, Bool.false_eq_true, if_false]
          rw [lookupSession_updateSession]
          by_cases hr : r' = r
          · rw [if_pos hr, Option.map_map]
            rfl
          · rw [if_neg hr]
        · simp only [setupKill, hE, hS, ho, if_true]
          rw [lookupSession_terminate]
          by_cases hr : r' = r
          · rw [if_pos hr, lookupSession_updateSession, if_pos hr,
              Option.map_map, Option.map_map]
            rfl
          · rw [if_neg hr, lookupSession_updateSession, if_neg hr]
      · simp [setupKill, hE, hS, ho]

theorem setupKill_state (st : BackendState) (id : String) (ko : Bool) :
    (setupKill st id ko).1 = st
    ∨ (∃ r, (setupKill st id ko).1 = updateSession st r setKill)
    ∨ (∃ r v, (setupKill st id ko).1 = terminate (updateSession st r setKill) v) := by
  cases hE : existingSessionRef st id with
  | none => left; simp [setupKill, hE]
  | some r =>
    cases hS : lookupSession st r with
    | none => left; simp [setupKill, hE, hS]
    | some s =>
      by_cases ho : s.owner.isSome
      · cases ko
        · right; left
          exact ⟨r, by simp [setupKill, hE, hS, ho]⟩
        · right; right
          exact ⟨r, Client.mk (s.owner.getD 0) id false r,
            by simp [setupKill, hE, hS, ho]⟩
      · left; simp [setupKill, hE, hS, ho]

theorem setupKill_config (st : BackendState) (id : String) (ko : Bool) :
    (setupKill st id ko).1.sessionQueueSize = st.sessionQueueSize
    ∧ (setupKill st id ko).1.nextRef = st.nextRef
    ∧ (setupKill st id ko).1.closing = st.closing := by
  rcases setupKill_state st id ko with h | ⟨r, h⟩ | ⟨r, v, h⟩ <;> rw [h] <;>
    exact ⟨rfl, rfl, rfl⟩

theorem allocSession_fst (st : BackendState) (cref : Nat) :
    (allocSession st cref).1
      = { st with
          sessions := (st.nextRef, freshSession st.sessionQueueSize cref) :: st.sessions,
          nextRef := st.nextRef + 1 } := rfl

theorem allocSession_snd (st : BackendState) (cref : Nat) :
    (allocSession st cref).2 = st.nextRef := rfl

/-- The full case analysis of a successful Setup call: the resumed flag is
true exactly on a non-clean reconnect that found a stored session; the
returned session is registered in the maps the corresponding branch of
the code writes. -/
theorem setup_ok_spec (st : BackendState) (c : Client) (id : String) (ko : Bool)
    (st' : BackendState) (r : Nat) (b : Bool)
    (h : setup st c id ko = (st', .ok r b)) :
    (b = true ↔ (¬id = "" ∧ c.cleanSession = false
        ∧ (alookup st.storedSessions id).isSome = true))
    ∧ (id = "" →
        b = false
        ∧ alookup st'.temporarySessions c.ref = some r
        ∧ st'.storedSessions = st.storedSessions)
    ∧ (¬id = "" → c.cleanSession = true →
        b = false
        ∧ alookup st'.storedSessions id = none
        ∧ alookup st'.temporarySessions c.ref = some r
        ∧ alookup st'.activeClients id = some c.ref)
    ∧ (¬id = "" → c.cleanSession = false →
        ∀ r0, alookup st.storedSessions id = some r0 →
          b = true ∧ r = r0
          ∧ lookupSession st' r0 = (lookupSession st r0).map (reArm c.ref)
          ∧ alookup st'.storedSessions id = some r0
          ∧ alookup st'.activeClients id = some c.ref)
    ∧ (¬id = "" → c.cleanSession = false →
        alookup st.storedSessions id = none →
          b = false
          ∧ alookup st'.storedSessions id = some r
          ∧ lookupSession st' r = some (freshSession st.sessionQueueSize c.ref)
          ∧ alookup st'.activeClients id = some c.ref) := by
  by_cases hcl : st.closing
  · simp [setup, hcl] at h
  · by_cases hid : id = ""
    · subst hid
      simp only [setup, hcl, if_false, if_true, allocSession_fst, allocSession_snd,
        Bool.false_eq_true, reduceIte, Prod.mk.injEq,
        SetupResult.ok.injEq] at h
      obtain ⟨h1, h2, h3⟩ := h
      subst h1
      subst h2
      subst h3
      refine ⟨by simp, fun _ => ⟨rfl, ?_, rfl⟩, fun habs => absurd rfl habs,
        fun habs => absurd rfl habs, fun habs => absurd rfl habs⟩
      exact alookup_ainsert_self _ _ _
    · cases hk2 : (setupKill st id ko).2 with
      | false =>
        simp [setup, hcl, hid, hk2] at h
      | true =>
        by_cases hclean : c.cleanSession
        · simp only [setup, hcl, hid, hk2, hclean, if_false, if_true,
            Bool.false_eq_true, Bool.true_eq_false, reduceIte,
            allocSession_fst, allocSession_snd, Prod.mk.injEq,
            SetupResult.ok.injEq] at h
          obtain ⟨h1, h2, h3⟩ := h
          subst h1
          subst h2
          subst h3
          refine ⟨by simp [hclean], fun habs => absurd habs hid, ?_, ?_, ?_⟩
          · intro _ _
            refine ⟨rfl, ?_, ?_, ?_⟩
            · exact alookup_aerase_self _ _
            · exact alookup_ainsert_self _ _ _
            · exact alookup_ainsert_self _ _ _
          · intro _ hcf
            simp [hclean] at hcf
          · intro _ hcf
            simp [hclean] at hcf
        · have hcf : c.cleanSession = false := by
            revert hclean
            cases c.cleanSession <;> simp
          have hstored := setupKill_storedSessions st id ko
          cases hs : alookup (setupKill st id ko).1.storedSessions id with
          | some r0 =>
            have hs0 : alookup st.storedSessions id = some r0 := by
              rw [← hstored]; exact hs
            simp only [setup, hcl, hid, hk2, hcf, hs, if_false, if_true,
              Bool.false_eq_true, Bool.true_eq_false, reduceIte,
              Prod.mk.injEq, SetupResult.ok.injEq] at h
            obtain ⟨h1, h2, h3⟩ := h
            subst h1
            subst h2
            subst h3
            refine ⟨by simp [hid, hcf, hs0], fun habs => absurd habs hid, ?_, ?_, ?_⟩
            · intro _ hct
              simp [hcf] at hct
            · intro _ _ r0' hr0'
              rw [hs0] at hr0'
              injection hr0' with hr0e
              subst hr0e
              refine ⟨rfl, rfl, ?_, hs, alookup_ainsert_self _ _ _⟩
              have hb : lookupSession
                  { updateSession (setupKill st id ko).1 r0 (reArm c.ref) with
                      activeClients :=
                        ainsert (updateSession (setupKill st id ko).1 r0 (reArm c.ref)).activeClients id c.ref }
                  r0
                  = (lookupSession (setupKill st id ko).1 r0).map (reArm c.ref) := by
                show lookupSession (updateSession (setupKill st id ko).1 r0 (reArm c.ref)) r0 = _
                rw [lookupSession_updateSession, if_pos rfl]
              rw [hb, setupKill_lookup_reArm]
            · intro _ _ hnone
              rw [hs0] at hnone
              cases hnone
          | none =>
            have hs0 : alookup st.storedSessions id = none := by
              rw [← hstored]; exact hs
            simp only [setup, hcl, hid, hk2, hcf, hs, if_false, if_true,
              Bool.false_eq_true, Bool.true_eq_false, reduceIte,
              allocSession_fst, allocSession_snd, Prod.mk.injEq,
              SetupResult.ok.injEq] at h
            obtain ⟨h1, h2, h3⟩ := h
            subst h1
            subst h2
            subst h3
            refine ⟨by simp [hid, hcf, hs0], fun habs => absurd habs hid, ?_, ?_, ?_⟩
            · intro _ hct
              simp [hcf] at hct
            · intro _ _ r0' hr0'
              rw [hs0] at hr0'
              cases hr0'
            · intro _ _ _
              refine ⟨rfl, alookup_ainsert_self _ _ _, ?_, alookup_ainsert_self _ _ _⟩
              have hq := (setupKill_config st id ko).1
              show alookup
                  (((setupKill st id ko).1.nextRef,
                    freshSession (setupKill st id ko).1.sessionQueueSize c.ref)
                    :: (setupKill st id ko).1.sessions)
                  (setupKill st id ko).1.nextRef
                = some (freshSession st.sessionQueueSize c.ref)
              rw [hq]
              simp [alookup]

/-- Claim C1: for every successful Setup(client, id): an empty id yields a
new temporary session with resumed=false; a non-empty id with
clean-session yields deletion of any stored session for the id and a
fresh session with resumed=false; a non-empty id without clean-session
re-arms and returns an existing stored session with resumed=true, and
otherwise creates a session recorded in the stored-session map under the
id with resumed=false; resumed=true exactly when clean is false and a
stored session for the id existed. -/
theorem claim_C1_setup (st : BackendState) (c : Client) (id : String) (ko : Bool)
    (st' : BackendState) (r : Nat) (b : Bool)
    (h : setup st c id ko = (st', .ok r b)) :
    (b = true ↔ (¬id = "" ∧ c.cleanSession = false
        ∧ (alookup st.storedSessions id).isSome = true))
    ∧ (id = "" → b = false ∧ alookup st'.temporarySessions c.ref = some r)
    ∧ (¬id = "" → c.cleanSession = true →
        b = false ∧ alookup st'.storedSessions id = none
        ∧ alookup st'.temporarySessions c.ref = some r)
    ∧ (¬id = "" → c.cleanSession = false →
        ∀ r0, alookup st.storedSessions id = some r0 →
          b = true ∧ r = r0
          ∧ lookupSession st' r0 = (lookupSession st r0).map (reArm c.ref))
    ∧ (¬id = "" → c.cleanSession = false → alookup st.storedSessions id = none →
        b = false ∧ alookup st'.storedSessions id = some r) := by
  obtain ⟨h1, h2, h3, h4, h5⟩ := setup_ok_spec st c id ko st' r b h
  exact ⟨h1, fun hi => ⟨(h2 hi).1, (h2 hi).2.1⟩,
    fun hi hc => ⟨(h3 hi hc).1, (h3 hi hc).2.1, (h3 hi hc).2.2.1⟩,
    fun hi hc r0 hr0 =>
      ⟨(h4 hi hc r0 hr0).1, (h4 hi hc r0 hr0).2.1, (h4 hi hc r0 hr0).2.2.1⟩,
    fun hi hc hn => ⟨(h5 hi hc hn).1, (h5 hi hc hn).2.1⟩⟩

theorem claim_C1_setup_witness :
    true = true ↔ (¬"a" = "" ∧ clientB.cleanSession = false
      ∧ (alookup stWithA.storedSessions "a").isSome = true) :=
  (claim_C1_setup stWithA clientB "a" true
    (setup stWithA clientB "a" true).1 0 true (by decide)).1

/-- Claim C5: for every Setup with non-empty id on a backend whose
existing session for the id has an owner: the kill channel of that
session is closed, and when the done channel does not fire within the
kill timeout Setup returns no session and the kill-timeout error, leaving
the existing session (and all three maps) in place. -/
theorem claim_C5_setup_kill_timeout (st : BackendState) (c : Client) (id : String)
    (r : Nat) (s : MemSession)
    (hcl : st.closing = false) (hid : ¬id = "")
    (hex : existingSessionRef st id = some r)
    (hs : lookupSession st r = some s)
    (how : s.owner.isSome = true) :
    setup st c id false = (updateSession st r setKill, .err .killTimeout)
    ∧ lookupSession (updateSession st r setKill) r = some (setKill s)
    ∧ (setKill s).owner = s.owner
    ∧ (setKill s).killClosed = true
    ∧ (updateSession st r setKill).storedSessions = st.storedSessions
    ∧ (updateSession st r setKill).temporarySessions = st.temporarySessions
    ∧ (updateSession st r setKill).activeClients = st.activeClients := by
  have hsk : setupKill st id false = (updateSession st r setKill, false) := by
    simp [setupKill, hex, hs, how]
  refine ⟨?_, ?_, rfl, rfl, rfl, rfl, rfl⟩
  · simp [setup, hcl, hid, hsk]
  · rw [lookupSession_updateSession, if_pos rfl, hs]
    rfl

theorem claim_C5_setup_kill_timeout_witness :
    setup stWithA clientB "a" false
      = (updateSession stWithA 0 setKill, .err .killTimeout) :=
  (claim_C5_setup_kill_timeout stWithA clientB "a" 0 sessA (by decide) (by decide)
    (by decide) (by decide) (by decide)).1

/-- Claim C7: Terminate clears the session's owner, removes the client
from the temporary-session map and the active-client map, and closes the
session's done channel, while the stored-session map is left unchanged. -/
theorem claim_C7_terminate (st : BackendState) (c : Client) (s : MemSession)
    (hs : lookupSession st c.sessionRef = some s) :
    lookupSession (terminate st c) c.sessionRef
      = some { s with owner := none, doneClosed := true }
    ∧ alookup (terminate st c).temporarySessions c.ref = none
    ∧ alookup (terminate st c).activeClients c.clientID = none
    ∧ (terminate st c).storedSessions = st.storedSessions := by
  refine ⟨?_, ?_, ?_, rfl⟩
  · rw [lookupSession_terminate, if_pos rfl, hs]
    rfl
  · exact alookup_aerase_self _ _
  · exact alookup_aerase_self _ _

theorem claim_C7_terminate_witness :
    lookupSession (terminate stWithA clientA) clientA.sessionRef
      = some { sessA with owner := none, doneClosed := true } :=
  (claim_C7_terminate stWithA clientA sessA (by decide)).1

/-- Claim C10: after a successful Setup with non-empty id and clean-session,
no stored session exists for the id, the fresh session is recorded in the
temporary-session map, resumed is false, and a later successful
clean-session=false Setup with that id also returns resumed=false. -/
theorem claim_C10_clean_setup (st : BackendState) (c1 : Client) (id : String)
    (ko : Bool) (st1 : BackendState) (r : Nat) (b : Bool)
    (hid : ¬id = "") (hclean : c1.cleanSession = true)
    (h : setup st c1 id ko = (st1, .ok r b)) :
    alookup st1.storedSessions id = none
    ∧ alookup st1.temporarySessions c1.ref = some r
    ∧ b = false
    ∧ ∀ (c2 : Client) (ko2 : Bool) (st2 : BackendState) (r2 : Nat) (b2 : Bool),
        c2.cleanSession = false →
        setup st1 c2 id ko2 = (st2, .ok r2 b2) → b2 = false := by
  obtain ⟨_, _, h3, _, _⟩ := setup_ok_spec st c1 id ko st1 r b h
  obtain ⟨hb, hst, htmp, _⟩ := h3 hid hclean
  refine ⟨hst, htmp, hb, ?_⟩
  intro c2 ko2 st2 r2 b2 hc2 h2
  obtain ⟨hiff, _, _, _, _⟩ := setup_ok_spec st1 c2 id ko2 st2 r2 b2 h2
  cases hb2 : b2 with
  | false => rfl
  | true =>
    have hx := hiff.mp hb2
    rw [hst] at hx
    simp at hx

theorem claim_C10_clean_setup_witness :
    alookup (setup stEmpty clientCleanA "a" true).1.storedSessions "a" = none
    ∧ alookup (setup stEmpty clientCleanA "a" true).1.temporarySessions
        clientCleanA.ref = some 0 :=
  have hx := claim_C10_clean_setup stEmpty clientCleanA "a" true
    (setup stEmpty clientCleanA "a" true).1 0 false (by decide) (by decide) (by decide)
  ⟨hx.1, hx.2.1⟩

/-- Claim C4: Authenticate returns the closing error while shutting down,
accepts everyone when no credentials map is configured, and otherwise
returns true exactly when the map binds the user to exactly that
password, returning false without error in every other case. -/
theorem claim_C4_authenticate (st : BackendState) (user password : String) :
    (st.closing = true → authenticate st user password = .error .closing)
    ∧ (st.closing = false → st.credentials = none →
        authenticate st user password = .ok true)
    ∧ (∀ creds, st.closing = false → st.credentials = some creds →
        authenticate st user password
          = .ok (decide (alookup creds user = some password))) := by
  refine ⟨?_, ?_, ?_⟩
  · intro h
    simp [authenticate, h]
  · intro h hc
    simp [authenticate, h, hc]
  · intro creds h hc
    simp only [authenticate, h, Bool.false_eq_true, if_false, hc]
    cases hl : alookup creds user with
    | none => simp [hl]
    | some pw =>
      by_cases hp : pw = password
      · simp [hl, hp]
      · simp [hl, hp]

theorem claim_C4_authenticate_witness :
    authenticate { stEmpty with closing := true } "u" "p" = .error .closing
    ∧ authenticate stEmpty "u" "p" = .ok true
    ∧ authenticate { stEmpty with credentials := some [("alice", "pw")] } "alice" "pw"
        = .ok (decide (alookup [("alice", "pw")] "alice" = some "pw")) :=
  ⟨(claim_C4_authenticate { stEmpty with closing := true } "u" "p").1 rfl,
   (claim_C4_authenticate stEmpty "u" "p").2.1 rfl rfl,
   (claim_C4_authenticate { stEmpty with credentials := some [("alice", "pw")] }
     "alice" "pw").2.2 [("alice", "pw")] rfl rfl⟩

theorem filter_eq_of_filter_ne {α β : Type} [DecidableEq α]
    (l : List (α × β)) (k : α) :
    (l.filter (fun p => decide (p.1 ≠ k))).filter (fun p => decide (p.1 = k)) = [] := by
  induction l with
  | nil => rfl
  | cons p rest ih =>
    cases p with
    | mk a b =>
      by_cases hp : a = k
      · rw [show List.filter (fun p => decide (p.1 ≠ k)) ((a, b) :: rest)
              = List.filter (fun p => decide (p.1 ≠ k)) rest by
            rw [List.filter_cons]; simp [hp]]
        exact ih
      · rw [show List.filter (fun p => decide (p.1 ≠ k)) ((a, b) :: rest)
              = (a, b) :: List.filter (fun p => decide (p.1 ≠ k)) rest by
            rw [List.filter_cons]; simp [hp]]
        rw [List.filter_cons]
        simp only [show (decide ((a, b).1 = k)) = false by simp [hp],
          Bool.false_eq_true, if_false]
        exact ih

/-- Claim C3 counterexample: calling StoreRetained with an empty-payload
message does not clear the retained entry — the entry is stored, and a
subsequent retained search of that exact topic returns the empty-payload
message rather than nothing. -/
theorem claim_C3_counterexample :
    searchRetained (storeRetained stEmpty
        { topic := "t", payload := [], qos := 0, retain := true }).retainedMessages "t"
      = [{ topic := "t", payload := [], qos := 0, retain := true }]
    ∧ searchRetained (storeRetained stEmpty
        { topic := "t", payload := [], qos := 0, retain := true }).retainedMessages "t"
      ≠ [] := by
  refine ⟨by decide, ?_⟩
  intro h
  cases h

/-- Claim C3 amended: StoreRetained stores the message at the trie entry
for its exact topic regardless of payload, replacing any previous entry
so at most one retained message exists per exact topic; clearing is done
by ClearRetained, after which a retained search returns no message for
that topic (empty-payload clearing is dispatched to ClearRetained by the
broker engine, not by StoreRetained). -/
theorem claim_C3_retained (st : BackendState) (msg : Message) (t q : String) :
    alookup (storeRetained st msg).retainedMessages msg.topic = some msg
    ∧ (storeRetained st msg).retainedMessages.filter
        (fun p => decide (p.1 = msg.topic)) = [(msg.topic, msg)]
    ∧ alookup (clearRetained st t).retainedMessages t = none
    ∧ ((∀ p ∈ st.retainedMessages, p.2.topic = p.1) →
        ∀ m ∈ searchRetained (clearRetained st t).retainedMessages q,
          ¬m.topic = t) := by
  refine ⟨alookup_ainsert_self _ _ _, ?_, alookup_aerase_self _ _, ?_⟩
  · show ((msg.topic, msg)
        :: st.retainedMessages.filter (fun p => decide (p.1 ≠ msg.topic))).filter
          (fun p => decide (p.1 = msg.topic)) = [(msg.topic, msg)]
    rw [List.filter_cons]
    simp only [decide_eq_true_eq, if_pos rfl]
    rw [filter_eq_of_filter_ne]
    simp
  · intro hinv m hm
    simp only [searchRetained, List.mem_map, List.mem_filter] at hm
    obtain ⟨p, ⟨hpmem, _⟩, hpm⟩ := hm
    have hne : p.1 ≠ t := by
      have := List.of_mem_filter hpmem
      simpa using this
    have hmem0 : p ∈ st.retainedMessages := List.mem_of_mem_filter hpmem
    rw [← hpm, hinv p hmem0]
    exact hne

theorem claim_C3_retained_witness :
    alookup (storeRetained stEmpty msgT).retainedMessages msgT.topic = some msgT
    ∧ (∀ m ∈ searchRetained
          (clearRetained { stEmpty with retainedMessages := [("t", msgT)] } "t").retainedMessages
          "t", ¬m.topic = "t") :=
  ⟨(claim_C3_retained stEmpty msgT "t" "t").1,
   (claim_C3_retained { stEmpty with retainedMessages := [("t", msgT)] }
     msgT "t" "t").2.2.2 (by decide)⟩

theorem setKill_setKill (m : MemSession) : setKill (setKill m) = setKill m := rfl

theorem lookupSession_foldl_setKill (l : List Nat) (st : BackendState) (r : Nat) :
    lookupSession (l.foldl (fun s x => updateSession s x setKill) st) r
      = if r ∈ l then (lookupSession st r).map setKill else lookupSession st r := by
  induction l generalizing st with
  | nil => simp
  | cons a rest ih =>
    show lookupSession (rest.foldl _ (updateSession st a setKill)) r = _
    rw [ih, lookupSession_updateSession]
    by_cases hr : r = a
    · subst hr
      by_cases hm : r ∈ rest
      · simp only [hm, if_pos rfl, List.mem_cons, true_or, if_true, Option.map_map]
        rfl
      · simp [hm, List.mem_cons]
    · by_cases hm : r ∈ rest
      · simp [hm, hr, List.mem_cons]
      · simp [hm, hr, List.mem_cons]

theorem foldl_setKill_closing (l : List Nat) (st : BackendState) :
    (l.foldl (fun s x => updateSession s x setKill) st).closing = st.closing := by
  induction l generalizing st with
  | nil => rfl
  | cons a rest ih => exact ih (updateSession st a setKill)

theorem ownedAt_iff (st : BackendState) (r : Nat) :
    ownedAt st r = true
      ↔ ∃ s, lookupSession st r = some s ∧ s.owner.isSome = true := by
  cases h : lookupSession st r <;> simp [ownedAt, h]

theorem mem_killList (st : BackendState) (r : Nat) :
    r ∈ killList st
      ↔ ((∃ p, p ∈ st.temporarySessions ∧ p.2 = r)
        ∨ (∃ p, p ∈ st.storedSessions ∧ p.2 = r
            ∧ ∃ s, lookupSession st r = some s ∧ s.owner.isSome = true)) := by
  simp only [killList, List.mem_append, List.mem_map, List.mem_filter]
  constructor
  · rintro (⟨p, hp, hpr⟩ | ⟨⟨p, hp, hpr⟩, howned⟩)
    · exact Or.inl ⟨p, hp, hpr⟩
    · exact Or.inr ⟨p, hp, hpr, (ownedAt_iff st r).mp howned⟩
  · rintro (⟨p, hp, hpr⟩ | ⟨p, hp, hpr, hs⟩)
    · exact Or.inl ⟨p, hp, hpr⟩
    · exact Or.inr ⟨⟨p, hp, hpr⟩, (ownedAt_iff st r).mpr hs⟩

/-- Claim C6: Close sets the closing flag, closes the kill channel of
every temporary session and of every stored session with an owner, and
returns true exactly when the done channel of each of those sessions
fires before the shared timeout (in particular, true immediately when
that set is empty). -/
theorem claim_C6_close (st : BackendState) (fires : Nat → Bool) :
    (closeBackend st fires).1.closing = true
    ∧ (closeBackend st fires).2 = (killList st).all fires
    ∧ ((closeBackend st fires).2 = true ↔ ∀ r ∈ killList st, fires r = true)
    ∧ (killList st = [] → (closeBackend st fires).2 = true)
    ∧ (∀ r, r ∈ killList st
        ↔ ((∃ p, p ∈ st.temporarySessions ∧ p.2 = r)
          ∨ (∃ p, p ∈ st.storedSessions ∧ p.2 = r
              ∧ ∃ s, lookupSession st r = some s ∧ s.owner.isSome = true)))
    ∧ (∀ r s, r ∈ killList st → lookupSession st r = some s →
        lookupSession (closeBackend st fires).1 r = some (setKill s)) := by
  have hlist : killList { st with closing := true } = killList st := rfl
  have hfst : (closeBackend st fires).1
      = (killList st).foldl (fun s x => updateSession s x setKill)
          { st with closing := true } := rfl
  have hsnd : (closeBackend st fires).2 = (killList st).all fires := rfl
  refine ⟨?_, hsnd, ?_, ?_, fun r => mem_killList st r, ?_⟩
  · rw [hfst, foldl_setKill_closing]
  · rw [hsnd, List.all_eq_true]
  · intro hempty
    rw [hsnd, hempty]
    rfl
  · intro r s hmem hs
    rw [hfst, lookupSession_foldl_setKill, if_pos hmem]
    have : lookupSession { st with closing := true } r = lookupSession st r := rfl
    rw [this, hs]
    rfl

theorem claim_C6_close_witness :
    (closeBackend stWithA (fun _ => true)).1.closing = true
    ∧ (closeBackend stWithA (fun _ => true)).2 = (killList stWithA).all (fun _ => true)
    ∧ lookupSession (closeBackend stWithA (fun _ => true)).1 0 = some (setKill sessA) :=
  have hx := claim_C6_close stWithA (fun _ => true)
  ⟨hx.1, hx.2.1, hx.2.2.2.2.2 0 sessA (by decide) (by decide)⟩

theorem publishLoop_ok (cref : Nat) (msg : Message) (refs : List Nat)
    (st : BackendState) (hnd : refs.Nodup)
    (hok : (publishLoop cref msg st refs).2 = none) :
    ∀ r s, lookupSession st r = some s →
      lookupSession (publishLoop cref msg st refs).1 r
        = some (if r ∈ refs then appendIfMatch msg s else s) := by
  induction refs generalizing st with
  | nil =>
    intro r s hs
    simp [publishLoop, hs]
  | cons a rest ih =>
    rw [List.nodup_cons] at hnd
    obtain ⟨hna, hndr⟩ := hnd
    intro r s hs
    cases hA : lookupSession st a with
    | none =>
      have heq : publishLoop cref msg st (a :: rest)
          = publishLoop cref msg st rest := by
        simp [publishLoop, hA]
      rw [heq] at hok ⊢
      rw [ih st hndr hok r s hs]
      by_cases hra : r = a
      · subst hra
        rw [hA] at hs
        cases hs
      · simp [List.mem_cons, hra]
    | some sa =>
      by_cases hmatch : (lookupSubscription sa.subscriptions msg.topic).isSome = true
      · have happend :
            ∀ hq : publishLoop cref msg st (a :: rest)
              = publishLoop cref msg
                  (updateSession st a (fun m => { m with queue := m.queue ++ [msg] }))
                  rest,
            lookupSession (publishLoop cref msg st (a :: rest)).1 r
              = some (if r ∈ a :: rest then appendIfMatch msg s else s) := by
          intro hq
          rw [hq] at hok ⊢
          by_cases hra : r = a
          · rw [hra] at hs ⊢
            rw [hA] at hs
            injection hs with hssa
            subst hssa
            have hupd : lookupSession
                (updateSession st a (fun m => { m with queue := m.queue ++ [msg] })) a
                = some { sa with queue := sa.queue ++ [msg] } := by
              rw [lookupSession_updateSession, if_pos rfl, hA]
              rfl
            rw [ih _ hndr hok a _ hupd]
            simp [List.mem_cons, appendIfMatch, hmatch, hna]
          · have hupd : lookupSession
                (updateSession st a (fun m => { m with queue := m.queue ++ [msg] })) r
                = some s := by
              rw [lookupSession_updateSession, if_neg hra]
              exact hs
            rw [ih _ hndr hok r s hupd]
            simp [List.mem_cons, hra]
        by_cases hown : sa.owner = some cref
        · by_cases hfull : sa.queue.length < sa.cap
          · exact happend (by simp [publishLoop, hA, hmatch, hown, hfull])
          · have hbad : (publishLoop cref msg st (a :: rest)).2 = some .queueFull := by
              simp [publishLoop, hA, hmatch, hown, hfull]
            rw [hbad] at hok
            cases hok
        · exact happend (by simp [publishLoop, hA, hmatch, hown])
      · have heq : publishLoop cref msg st (a :: rest)
            = publishLoop cref msg st rest := by
          simp [publishLoop, hA, hmatch]
        rw [heq] at hok ⊢
        rw [ih st hndr hok r s hs]
        by_cases hra : r = a
        · subst hra
          rw [hA] at hs
          injection hs with hssa
          subst hssa
          simp [List.mem_cons, hna, appendIfMatch, hmatch]
        · simp [List.mem_cons, hra]

theorem publishLoop_err (cref : Nat) (msg : Message) (refs : List Nat)
    (st : BackendState) (hnd : refs.Nodup) (e : BErr)
    (herr : (publishLoop cref msg st refs).2 = some e) :
    e = .queueFull
    ∧ ∃ r s, r ∈ refs ∧ lookupSession st r = some s
        ∧ (lookupSubscription s.subscriptions msg.topic).isSome = true
        ∧ s.owner = some cref ∧ ¬s.queue.length < s.cap := by
  induction refs generalizing st with
  | nil => simp [publishLoop] at herr
  | cons a rest ih =>
    rw [List.nodup_cons] at hnd
    obtain ⟨hna, hndr⟩ := hnd
    cases hA : lookupSession st a with
    | none =>
      have heq : publishLoop cref msg st (a :: rest)
          = publishLoop cref msg st rest := by
        simp [publishLoop, hA]
      rw [heq] at herr
      obtain ⟨he, r, s, hmem, hs, hm, ho, hf⟩ := ih st hndr herr
      exact ⟨he, r, s, List.mem_cons_of_mem a hmem, hs, hm, ho, hf⟩
    | some sa =>
      by_cases hmatch : (lookupSubscription sa.subscriptions msg.topic).isSome = true
      · have hstep :
            ∀ hq : publishLoop cref msg st (a :: rest)
              = publishLoop cref msg
                  (updateSession st a (fun m => { m with queue := m.queue ++ [msg] }))
                  rest,
            e = .queueFull
            ∧ ∃ r s, r ∈ a :: rest ∧ lookupSession st r = some s
                ∧ (lookupSubscription s.subscriptions msg.topic).isSome = true
                ∧ s.owner = some cref ∧ ¬s.queue.length < s.cap := by
          intro hq
          rw [hq] at herr
          obtain ⟨he, r, s, hmem, hs, hm, ho, hf⟩ := ih _ hndr herr
          have hra : ¬r = a := fun hra => hna (hra ▸ hmem)
          rw [lookupSession_updateSession, if_neg hra] at hs
          exact ⟨he, r, s, List.mem_cons_of_mem a hmem, hs, hm, ho, hf⟩
        by_cases hown : sa.owner = some cref
        · by_cases hfull : sa.queue.length < sa.cap
          · exact hstep (by simp [publishLoop, hA, hmatch, hown, hfull])
          · have hbad : (publishLoop cref msg st (a :: rest)).2 = some .queueFull := by
              simp [publishLoop, hA, hmatch, hown, hfull]
            rw [hbad] at herr
            injection herr with he
            exact ⟨he.symm, a, sa, List.mem_cons_self a rest, hA, hmatch, hown, hfull⟩
        · exact hstep (by simp [publishLoop, hA, hmatch, hown])
      · have heq : publishLoop cref msg st (a :: rest)
            = publishLoop cref msg st rest := by
          simp [publishLoop, hA, hmatch]
        rw [heq] at herr
        obtain ⟨he, r, s, hmem, hs, hm, ho, hf⟩ := ih st hndr herr
        exact ⟨he, r, s, List.mem_cons_of_mem a hmem, hs, hm, ho, hf⟩

theorem publishLoop_ok_own_fits (cref : Nat) (msg : Message) (refs : List Nat)
    (st : BackendState) (hnd : refs.Nodup)
    (hok : (publishLoop cref msg st refs).2 = none) :
    ∀ r s, r ∈ refs → lookupSession st r = some s →
      (lookupSubscription s.subscriptions msg.topic).isSome = true →
      s.owner = some cref → s.queue.length < s.cap := by
  induction refs generalizing st with
  | nil =>
    intro r s hmem
    cases hmem
  | cons a rest ih =>
    rw [List.nodup_cons] at hnd
    obtain ⟨hna, hndr⟩ := hnd
    intro r s hmem hs hm ho
    cases hA : lookupSession st a with
    | none =>
      have heq : publishLoop cref msg st (a :: rest)
          = publishLoop cref msg st rest := by
        simp [publishLoop, hA]
      rw [heq] at hok
      rcases List.mem_cons.mp hmem with hra | hmem'
      · rw [hra, hA] at hs
        cases hs
      · exact ih st hndr hok r s hmem' hs hm ho
    | some sa =>
      by_cases hmatch : (lookupSubscription sa.subscriptions msg.topic).isSome = true
      · have hstep :
            ∀ hq : publishLoop cref msg st (a :: rest)
              = publishLoop cref msg
                  (updateSession st a (fun m => { m with queue := m.queue ++ [msg] }))
                  rest,
            r ∈ rest → s.queue.length < s.cap := by
          intro hq hmem'
          rw [hq] at hok
          have hra : ¬r = a := fun hra => hna (hra ▸ hmem')
          have hs1 : lookupSession
              (updateSession st a (fun m => { m with queue := m.queue ++ [msg] })) r
              = some s := by
            rw [lookupSession_updateSession, if_neg hra]
            exact hs
          exact ih _ hndr hok r s hmem' hs1 hm ho
        by_cases hown : sa.owner = some cref
        · by_cases hfull : sa.queue.length < sa.cap
          · rcases List.mem_cons.mp hmem with hra | hmem'
            · rw [hra, hA] at hs
              injection hs with hssa
              rw [← hssa]
              exact hfull
            · exact hstep (by simp [publishLoop, hA, hmatch, hown, hfull]) hmem'
          · have hbad : (publishLoop cref msg st (a :: rest)).2
                = some BErr.queueFull := by
              simp [publishLoop, hA, hmatch, hown, hfull]
            rw [hbad] at hok
            cases hok
        · rcases List.mem_cons.mp hmem with hra | hmem'
          · rw [hra, hA] at hs
            injection hs with hssa
            rw [← hssa] at ho
            exact absurd ho hown
          · exact hstep (by simp [publishLoop, hA, hmatch, hown]) hmem'
      · have heq : publishLoop cref msg st (a :: rest)
            = publishLoop cref msg st rest := by
          simp [publishLoop, hA, hmatch]
        rw [heq] at hok
        rcases List.mem_cons.mp hmem with hra | hmem'
        · rw [hra, hA] at hs
          injection hs with hssa
          rw [← hssa] at hm
          exact absurd hm hmatch
        · exact ih st hndr hok r s hmem' hs hm ho

/-- Claim C2: Publish appends the message to the queue of every session
(temporary or stored) whose subscriptions match the topic; the append
into the publisher's own session is non-blocking and Publish returns
queue-full exactly when such an own matching session's queue is full;
appends into sessions owned by other clients or by no client never yield
queue-full. -/
theorem claim_C2_publish (st : BackendState) (cref : Nat) (msg : Message)
    (hnd : (publishRefs st).Nodup) :
    ((publish st cref msg).2 = none →
      ∀ r s, lookupSession st r = some s →
        lookupSession (publish st cref msg).1 r
          = some (if r ∈ publishRefs st then appendIfMatch msg s else s))
    ∧ (∀ e, (publish st cref msg).2 = some e →
        e = .queueFull
        ∧ ∃ r s, r ∈ publishRefs st ∧ lookupSession st r = some s
            ∧ (lookupSubscription s.subscriptions msg.topic).isSome = true
            ∧ s.owner = some cref ∧ ¬s.queue.length < s.cap)
    ∧ ((∀ r s, r ∈ publishRefs st → lookupSession st r = some s →
          (lookupSubscription s.subscriptions msg.topic).isSome = true →
          s.owner = some cref → s.queue.length < s.cap) →
        (publish st cref msg).2 = none)
    ∧ (∀ r s, r ∈ publishRefs st → lookupSession st r = some s →
        (lookupSubscription s.subscriptions msg.topic).isSome = true →
        s.owner = some cref → ¬s.queue.length < s.cap →
        (publish st cref msg).2 = some BErr.queueFull)
    ∧ (∀ r, r ∈ publishRefs st
        ↔ ((∃ p, p ∈ st.temporarySessions ∧ p.2 = r)
          ∨ (∃ p, p ∈ st.storedSessions ∧ p.2 = r))) := by
  refine ⟨fun hok => publishLoop_ok cref msg (publishRefs st) st hnd hok,
    fun e he => publishLoop_err cref msg (publishRefs st) st hnd e he, ?_, ?_, ?_⟩
  · intro hall
    cases hres : (publish st cref msg).2 with
    | none => rfl
    | some e =>
      obtain ⟨_, r, s, hmem, hs, hm, ho, hf⟩ :=
        publishLoop_err cref msg (publishRefs st) st hnd e hres
      exact absurd (hall r s hmem hs hm ho) hf
  · intro r s hmem hs hm ho hf
    cases hres : (publish st cref msg).2 with
    | none =>
      exact absurd
        (publishLoop_ok_own_fits cref msg (publishRefs st) st hnd hres r s hmem hs hm ho)
        hf
    | some e =>
      obtain ⟨he, _⟩ := publishLoop_err cref msg (publishRefs st) st hnd e hres
      rw [he]
  · intro r
    simp [publishRefs, List.mem_append, List.mem_map]

theorem claim_C2_publish_witness :
    lookupSession (publish stWithA 20 msgT).1 0
      = some (if 0 ∈ publishRefs stWithA then appendIfMatch msgT sessA else sessA) :=
  (claim_C2_publish stWithA 20 msgT (by decide)).1 (by decide) 0 sessA (by decide)

theorem queueRetainedLoop_spec (r : Nat) (vals : List Message)
    (st : BackendState) (s : MemSession) (hs : lookupSession st r = some s) :
    (queueRetainedLoop r st vals).2
      = (if vals.length ≤ s.cap - s.queue.length then none else some BErr.queueFull)
    ∧ lookupSession (queueRetainedLoop r st vals).1 r
      = some { s with
          queue := s.queue ++ vals.take (min vals.length (s.cap - s.queue.length)) }
    ∧ ∀ r', ¬r' = r →
        lookupSession (queueRetainedLoop r st vals).1 r' = lookupSession st r' := by
  induction vals generalizing st s with
  | nil =>
    refine ⟨by simp [queueRetainedLoop], ?_, fun r' _ => rfl⟩
    show lookupSession st r = some _
    rw [hs]
    simp
  | cons v rest ih =>
    by_cases hlt : s.queue.length < s.cap
    · have heq : queueRetainedLoop r st (v :: rest)
          = queueRetainedLoop r
              (updateSession st r (fun m => { m with queue := m.queue ++ [v] })) rest := by
        simp [queueRetainedLoop, hs, hlt]
      have hs1 : lookupSession
          (updateSession st r (fun m => { m with queue := m.queue ++ [v] })) r
          = some { s with queue := s.queue ++ [v] } := by
        rw [lookupSession_updateSession, if_pos rfl, hs]
        rfl
      obtain ⟨ih1, ih2, ih3⟩ := ih _ _ hs1
      rw [heq]
      have hq : ({ s with queue := s.queue ++ [v] } : MemSession).queue
          = s.queue ++ [v] := rfl
      have hlen : ({ s with queue := s.queue ++ [v] } : MemSession).queue.length
          = s.queue.length + 1 := by
        rw [hq]
        simp
      have hcap : ({ s with queue := s.queue ++ [v] } : MemSession).cap = s.cap := rfl
      refine ⟨?_, ?_, ?_⟩
      · rw [ih1, hlen, hcap]
        have hc : (rest.length ≤ s.cap - (s.queue.length + 1))
            ↔ ((v :: rest).length ≤ s.cap - s.queue.length) := by
          simp only [List.length_cons]
          omega
        by_cases hfits : rest.length ≤ s.cap - (s.queue.length + 1)
        · rw [if_pos hfits, if_pos (hc.mp hfits)]
        · rw [if_neg hfits, if_neg (fun hcc => hfits (hc.mpr hcc))]
      · rw [ih2, hlen, hcap, hq]
        have hk : min ((v :: rest).length) (s.cap - s.queue.length)
            = min rest.length (s.cap - (s.queue.length + 1)) + 1 := by
          simp only [List.length_cons]
          omega
        rw [hk, List.take_succ_cons, List.append_assoc]
        rfl
      · intro r' hr'
        rw [ih3 r' hr', lookupSession_updateSession, if_neg hr']
    · have heq : queueRetainedLoop r st (v :: rest) = (st, some BErr.queueFull) := by
        simp [queueRetainedLoop, hs, hlt]
      rw [heq]
      refine ⟨?_, ?_, fun r' _ => rfl⟩
      · have hz : s.cap - s.queue.length = 0 := by omega
        rw [hz]
        simp
      · have hz : min ((v :: rest).length) (s.cap - s.queue.length) = 0 := by
          have : s.cap - s.queue.length = 0 := by omega
          simp [this]
        rw [hz]
        show lookupSession st r = some _
        rw [hs]
        simp

/-- Claim C9: QueueRetained enqueues each retained message matching the
topic into the client's own session queue with a non-blocking append;
when the queue cannot hold them all it enqueues only those that fit,
returns queue-full at the first message that does not fit, and never
touches any other session. -/
theorem claim_C9_queueRetained (st : BackendState) (c : Client) (query : String)
    (s : MemSession) (hs : lookupSession st c.sessionRef = some s) :
    (queueRetained st c query).2
      = (if (searchRetained st.retainedMessages query).length ≤ s.cap - s.queue.length
         then none else some BErr.queueFull)
    ∧ lookupSession (queueRetained st c query).1 c.sessionRef
      = some { s with
          queue := s.queue ++ (searchRetained st.retainedMessages query).take
            (min (searchRetained st.retainedMessages query).length
              (s.cap - s.queue.length)) }
    ∧ ∀ r', ¬r' = c.sessionRef →
        lookupSession (queueRetained st c query).1 r' = lookupSession st r' :=
  queueRetainedLoop_spec c.sessionRef (searchRetained st.retainedMessages query) st s hs

theorem varintDecode_le (fuel : Nat) (l : List Nat) (v n : Nat)
    (h : varintDecode fuel l = some (v, n)) : n ≤ l.length := by
  induction fuel generalizing l v n with
  | zero => simp [varintDecode] at h
  | succ f ih =>
    cases l with
    | nil => simp [varintDecode] at h
    | cons b rest =>
      by_cases hb : b < 128
      · simp only [varintDecode, hb, if_true, Option.some.injEq, Prod.mk.injEq] at h
        obtain ⟨_, hn⟩ := h
        rw [← hn]
        simp
      · cases hrec : varintDecode f rest with
        | none => simp [varintDecode, hb, hrec] at h
        | some p =>
          obtain ⟨v', n'⟩ := p
          simp only [varintDecode, hb, hrec, if_false, Option.some.injEq,
            Prod.mk.injEq, Bool.false_eq_true, reduceIte] at h
          obtain ⟨_, hn⟩ := h
          have hle := ih rest v' n' hrec
          rw [← hn]
          simp only [List.length_cons]
          omega

theorem headerDecode_ok_bound (src : List Nat) (t hl fl rl : Nat)
    (h : headerDecode src t = .ok (hl, fl, rl)) :
    1 ≤ hl ∧ hl + rl ≤ src.length := by
  cases src with
  | nil => simp [headerDecode] at h
  | cons b rest =>
    by_cases ht : b / 16 ≠ t
    · simp [headerDecode, ht] at h
    · by_cases hf : b % 16 ≠ 0
      · simp [headerDecode, ht, hf] at h
      · cases hv : varintDecode 4 rest with
        | none => simp [headerDecode, ht, hf, hv] at h
        | some p =>
          obtain ⟨rlv, n⟩ := p
          by_cases hlen : rest.length - n < rlv
          · simp [headerDecode, ht, hf, hv, hlen] at h
          · simp only [headerDecode, ht, hf, hv, hlen, if_false, if_true,
              Except.ok.injEq, Prod.mk.injEq, reduceIte] at h
            obtain ⟨h1, _, h3⟩ := h
            have hle := varintDecode_le 4 rest rlv n hv
            constructor
            · omega
            · simp only [List.length_cons]
              omega

/-- Claim C8: SubackMessage.Decode fails when the buffer is shorter than
the fixed header plus two bytes, when the remaining length is at most 2,
or when any return code is outside {0, 1, 2, 0x80} (and whenever the
header itself fails to decode); SubackMessage.Encode fails when any
return code is outside that set; on success Decode yields the big-endian
packet id and exactly remaining-length minus 2 return codes. -/
theorem claim_C8_suback (src : List Nat) (sm : SubackMessage) :
    (∀ e, headerDecode src SUBACK = .error e → subackDecode src = .error e)
    ∧ (∀ hl fl rl, headerDecode src SUBACK = .ok (hl, fl, rl) →
        src.length < hl + 2 → subackDecode src = .error .insufficientBuffer)
    ∧ (∀ hl fl rl, headerDecode src SUBACK = .ok (hl, fl, rl) →
        ¬src.length < hl + 2 → rl ≤ 2 → subackDecode src = .error .rlTooSmall)
    ∧ (∀ hl fl rl, headerDecode src SUBACK = .ok (hl, fl, rl) →
        ¬src.length < hl + 2 → ¬rl ≤ 2 →
        ((src.drop (hl + 2)).take (rl - 2)).all
            (fun c => validQOS c || c = QOSFailure) = false →
        subackDecode src = .error .invalidReturnCode)
    ∧ (∀ n m, subackDecode src = .ok (n, m) →
        ∃ hl fl rl, headerDecode src SUBACK = .ok (hl, fl, rl)
          ∧ 2 < rl
          ∧ m.returnCodes = (src.drop (hl + 2)).take (rl - 2)
          ∧ m.returnCodes.length = rl - 2
          ∧ m.packetID = ((src.drop hl).headD 0) * 256 + ((src.drop (hl + 1)).headD 0)
          ∧ m.returnCodes.all (fun c => validQOS c || c = QOSFailure) = true
          ∧ n = hl + rl)
    ∧ (sm.returnCodes.all (fun c => validQOS c || c = QOSFailure) = false →
        subackEncode sm = .error .invalidReturnCode) := by
  refine ⟨?_, ?_, ?_, ?_, ?_, ?_⟩
  · intro e he
    simp [subackDecode, he]
  · intro hl fl rl hh hlt
    simp [subackDecode, hh, hlt]
  · intro hl fl rl hh h1 h2
    simp [subackDecode, hh, h1, h2]
  · intro hl fl rl hh h1 h2 hall
    simp [subackDecode, hh, h1, h2, hall]
  · intro n m hok
    cases hh : headerDecode src SUBACK with
    | error e => simp [subackDecode, hh] at hok
    | ok tri =>
      obtain ⟨hl, fl, rl⟩ := tri
      by_cases h1 : src.length < hl + 2
      · simp [subackDecode, hh, h1] at hok
      · by_cases h2 : rl ≤ 2
        · simp [subackDecode, hh, h1, h2] at hok
        · cases h3 : ((src.drop (hl + 2)).take (rl - 2)).all
              (fun c => validQOS c || c = QOSFailure) with
          | false => simp [subackDecode, hh, h1, h2, h3] at hok
          | true =>
            simp only [subackDecode, hh, h1, h2, h3, if_false, if_true,
              Bool.false_eq_true, reduceIte, Except.ok.injEq, Prod.mk.injEq] at hok
            obtain ⟨hn, hm⟩ := hok
            obtain ⟨_, hbound⟩ := headerDecode_ok_bound src SUBACK hl fl rl hh
            have hlen : ((src.drop (hl + 2)).take (rl - 2)).length = rl - 2 := by
              rw [List.length_take, List.length_drop]
              omega
            refine ⟨hl, fl, rl, rfl, by omega, ?_, ?_, ?_, ?_, ?_⟩
            · rw [← hm]
            · rw [← hm]
              exact hlen
            · rw [← hm]
            · rw [← hm]
              exact h3
            · rw [← hn, hlen]
              omega
  · intro hall
    simp [subackEncode, hall]

theorem claim_C8_suback_witness :
    subackDecode [144, 2, 0, 7] = .error .rlTooSmall
    ∧ subackDecode [144, 3, 0, 7, 3] = .error .invalidReturnCode
    ∧ subackEncode { returnCodes := [3], packetID := 1 } = .error .invalidReturnCode :=
  ⟨(claim_C8_suback [144, 2, 0, 7] ⟨[], 0⟩).2.2.1 2 0 2
      (by rfl) (by decide) (by decide),
   (claim_C8_suback [144, 3, 0, 7, 3] ⟨[], 0⟩).2.2.2.1 2 0 3
      (by rfl) (by decide) (by decide) (by decide),
   (claim_C8_suback [] { returnCodes := [3], packetID := 1 }).2.2.2.2.2
      (by decide)⟩

theorem claim_C9_queueRetained_witness :
    (queueRetained stRetQ clientA "#").2
      = (if (searchRetained stRetQ.retainedMessages "#").length
            ≤ sessA.cap - sessA.queue.length
         then none else some BErr.queueFull)
    ∧ lookupSession (queueRetained stRetQ clientA "#").1 clientA.sessionRef
      = some { sessA with
          queue := sessA.queue ++ (searchRetained stRetQ.retainedMessages "#").take
            (min (searchRetained stRetQ.retainedMessages "#").length
              (sessA.cap - sessA.queue.length)) } :=
  have hx := claim_C9_queueRetained stRetQ clientA "#" sessA (by decide)
  ⟨hx.1, hx.2.1⟩

end GoMqtt
